import Mathlib

/-
Verification of the ModbusPoller core against its specification.

Shallow embedding of the Python sources:
  src/utils/modbus.py   (class Poller: request planning, poll cycle, adjustment pipeline)
  src/utils/coders.py   (classes Decoder and Encoder)
  src/utils/workers.py  (classes Worker and PollingWorker)
  src/utils/utils.py    (isNumerical)

Conventions used throughout:
  * Python ints are modelled as Nat / Int; Python floats are idealised as real
    numbers.  The external pymodbus payload builder/decoder (an external
    library, not part of this repository) is abstracted as an ExtCodec record
    of uninterpreted packing functions; every theorem that touches it is
    universally quantified over the record, so nothing depends on its
    behaviour.
  * Python dictionaries keyed by strings are modelled as functions
    String -> Option v (for the settings dict) or as association lists kept in
    insertion order (for the request map, whose iteration order matters).
  * Python exceptions are modelled with Except: PyErr.valueError models
    ValueError, PyErr.modbusException models pymodbus ModbusException.
-/

/-! ## Data formats (the 16 codec variants, `Poller.reg_len` keys) -/

/-- The sixteen data formats of `Poller.reg_len` in src/utils/modbus.py. -/
inductive Format
  | signed | unsigned | hexAscii | binary
  | longABCD | longCDAB | longBADC | longDCBA
  | floatABCD | floatCDAB | floatBADC | floatDCBA
  | doubleABCDEFGH | doubleGHEFCDAB | doubleBADCFEHG | doubleHGFEDCBA
deriving DecidableEq

/-- Word length per format: the `reg_len` dictionary built in `Poller.__init__`
(src/utils/modbus.py lines 54-69). -/
def regLen : Format → Nat
  | .signed | .unsigned | .hexAscii | .binary => 1
  | .longABCD | .longCDAB | .longBADC | .longDCBA => 2
  | .floatABCD | .floatCDAB | .floatBADC | .floatDCBA => 2
  | .doubleABCDEFGH | .doubleGHEFCDAB | .doubleBADCFEHG | .doubleHGFEDCBA => 4

/-! ## Request planning (the `registers` setter of `Poller`,
src/utils/modbus.py lines 271-329).

A register entry of the configuration data handed to the setter.  The code
reads `register['address']` (a decimal string, always passed through `int`,
modelled as a Nat), `register['format']` and `register['id']`; the remaining
content fields ride along opaquely and are modelled by the register id. -/

structure Reg where
  address : Nat
  format : Format
  rid : Nat
deriving DecidableEq

/-- One request group as built by the `registers` setter: `address` is the
start address, `quantity` the number of words requested in one wire
transaction, and `map` the response-offset map (offset key, register), kept
in insertion order like a Python dict. -/
structure Batch where
  address : Nat
  quantity : Nat
  map : List (Nat × Reg)
deriving DecidableEq

/-- Model of `max(requests[index]['map'].keys())` followed by indexing: the map entry
with the greatest offset key (keys are unique in every map the setter
builds). -/
def maxEntry (l : List (Nat × Reg)) : Option (Nat × Reg) :=
  l.foldl
    (fun acc e =>
      match acc with
      | Option.none => some e
      | some a => if a.1 < e.1 then some e else some a)
    Option.none

/-- One iteration of the loop body of the `registers` setter
(src/utils/modbus.py lines 273-328): `requests` is the dict of groups built
so far (keys 0..len-1, modelled as a list), `r` the incoming register. -/
def planStep (requests : List Batch) (r : Reg) : List Batch :=
  match requests.getLast? with
  | Option.none =>
      [{ address := r.address, quantity := regLen r.format, map := [(0, r)] }]
  | some b =>
      match maxEntry b.map with
      | Option.none =>
          -- unreachable: every group is created with one map entry and map
          -- entries are never removed (Python max() would raise on an empty
          -- map).
          requests ++ [{ address := r.address, quantity := regLen r.format, map := [(0, r)] }]
      | some (pk, pr) =>
          if r.address = pr.address + regLen pr.format then
            requests.dropLast ++
              [{ b with
                  quantity := b.quantity + regLen r.format,
                  map := b.map ++ [(pk + regLen pr.format, r)] }]
          else
            requests ++ [{ address := r.address, quantity := regLen r.format, map := [(0, r)] }]

/-- The `registers` setter for the register list of one function code. -/
def planRegisters (regs : List Reg) : List Batch :=
  regs.foldl planStep []

/-- Modelled from the spec's words for comparison (section 4.3
RequestPlanner): append to the current batch iff the incoming address equals
`current_batch.start_address + current_batch.word_count`, recording the
offset as the pre-extension word count; otherwise open a new batch. -/
def planSpecStep (requests : List Batch) (r : Reg) : List Batch :=
  match requests.getLast? with
  | Option.none =>
      [{ address := r.address, quantity := regLen r.format, map := [(0, r)] }]
  | some b =>
      if r.address = b.address + b.quantity then
        requests.dropLast ++
          [{ b with
              quantity := b.quantity + regLen r.format,
              map := b.map ++ [(b.quantity, r)] }]
      else
        requests ++ [{ address := r.address, quantity := regLen r.format, map := [(0, r)] }]

/-- The request planner as the spec describes it. -/
def planSpecRegisters (regs : List Reg) : List Batch :=
  regs.foldl planSpecStep []

/-- Offsets and addresses of a batch map are consecutive: starting at offset
`o` (wire address `addr + o`), each entry sits at the running offset and
advances it by its word length. -/
def ChainFrom (addr : Nat) : Nat → List (Nat × Reg) → Prop
  | _, [] => True
  | o, (k, r) :: rest =>
      k = o ∧ r.address = addr + o ∧ ChainFrom addr (o + regLen r.format) rest

/-- Sum of the word lengths of the members of a batch map. -/
def sumLens (l : List (Nat × Reg)) : Nat :=
  (l.map (fun e => regLen e.2.format)).sum

/-- The registers referenced by a batch list, in batch-and-offset order. -/
def contents (bs : List Batch) : List Reg :=
  bs.flatMap (fun b => b.map.map (fun e => e.2))

/-- Two offset-map entries occupy disjoint offset ranges
[offset, offset + word length). -/
def entriesDisjoint (e₁ e₂ : Nat × Reg) : Prop :=
  e₁.1 + regLen e₁.2.format ≤ e₂.1 ∨ e₂.1 + regLen e₂.2.format ≤ e₁.1

instance : DecidablePred (fun p : (Nat × Reg) × (Nat × Reg) => entriesDisjoint p.1 p.2) :=
  fun p => by unfold entriesDisjoint; infer_instance

instance (e₁ e₂ : Nat × Reg) : Decidable (entriesDisjoint e₁ e₂) := by
  unfold entriesDisjoint; infer_instance

/-- Last-batch invariant maintained by the setter loop: the map entry at the
greatest offset ends exactly at the batch's word count, both in offset space
and in address space, and every offset is below the word count. -/
def PInv (b : Batch) : Prop :=
  ∃ pk pr, maxEntry b.map = some (pk, pr) ∧
    pk + regLen pr.format = b.quantity ∧
    pr.address + regLen pr.format = b.address + b.quantity ∧
    ∀ e ∈ b.map, e.1 < b.quantity

/-- Well-formed batch: its offset map is a consecutive chain starting at
offset 0 of the batch's start address, and its word count is the sum of its
members' word lengths. -/
def BatchWF (b : Batch) : Prop :=
  ChainFrom b.address 0 b.map ∧ b.quantity = sumLens b.map

/-! ## Adjustment pipeline (`Poller._adjust` and `Poller._adjust_reverse`,
src/utils/modbus.py lines 419-458).

Python floats are idealised as real numbers; the numeric operands of
arithmetic steps (decimal strings in the configuration, always passed
through `float`) are modelled as their real values, and lookup keys (digit
strings recognised by `operator.isdigit()`, hence non-negative integers) as
naturals. -/

/-- The five arithmetic operators of an adjustment step. -/
inductive AdjOp | add | sub | mul | div | pw
deriving DecidableEq

/-- One adjustment step: either an arithmetic step `{operator: operand}` or a
lookup step `{digit-string: label}`. -/
inductive AdjStep
  | arith (op : AdjOp) (operand : ℝ)
  | lookup (key : ℕ) (label : String)

/-- One arithmetic step applied forward, as in the operator chain of
`_adjust` (+, -, *, /, ** with a real exponent). -/
noncomputable def stepApply (x : ℝ) : AdjOp → ℝ → ℝ
  | .add, c => x + c
  | .sub, c => x - c
  | .mul, c => x * c
  | .div, c => x / c
  | .pw, c => x ^ c

/-- One arithmetic step inverted, as in the operator chain of
`_adjust_reverse` (the `^` case uses the exponent `1 / operand`). -/
noncomputable def stepInvert (v : ℝ) : AdjOp → ℝ → ℝ
  | .add, c => v - c
  | .sub, c => v + c
  | .mul, c => v / c
  | .div, c => v * c
  | .pw, c => v ^ (1 / c)

/-- Two decimal digits with a leading zero where needed. -/
def pad2 (m : ℕ) : String :=
  if m < 10 then "0" ++ toString m else toString m

/-- Decimal string of `n` hundredths, non-negative case. -/
def fmt2Nat (m : ℕ) : String :=
  toString (m / 100) ++ "." ++ pad2 (m % 100)

/-- Decimal string of `n` hundredths. -/
def fmt2Int (n : ℤ) : String :=
  if n < 0 then "-" ++ fmt2Nat n.natAbs else fmt2Nat n.toNat

/-- The final formatting of `_adjust`: the Python f-string `f"{result:.2f}"`,
modelled as rounding to the nearest hundredth and printing two decimals.
(Python breaks exact ties to even; `round` breaks them upward.  No theorem
below evaluates the formatting at a tie.) -/
noncomputable def fmt2 (x : ℝ) : String :=
  fmt2Int (round (x * 100))

/-- The numeric value denoted by the two-decimal display string of `x`, i.e.
the value Python's `float` reads back from `f"{x:.2f}"`. -/
noncomputable def round2 (x : ℝ) : ℝ :=
  (round (x * 100) : ℝ) / 100

/-- The loop of `_adjust` on a numeric running value: a lookup step whose key
equals the running value returns its label at once; an arithmetic step
updates the running value; an exhausted list formats the result with two
decimals. -/
noncomputable def adjustNum (x : ℝ) : List AdjStep → String
  | [] => fmt2 x
  | .lookup k lbl :: rest => if x = (k : ℝ) then lbl else adjustNum x rest
  | .arith op c :: rest => adjustNum (stepApply x op c) rest

/-- The value handed to `_adjust`: Python `None`, a string (from the Binary
and Hex - ASCII decoders) or a number (every other decoder; booleans from
coil reads coerce to 0.0/1.0 via `float`). -/
inductive AdjInput
  | null
  | str (s : String)
  | num (x : ℝ)

/-- Model of `Poller._adjust`: `None` passes through as `None`, a string is returned
unchanged, and a number runs the adjustment loop. -/
noncomputable def adjust : AdjInput → List AdjStep → Option String
  | .null, _ => Option.none
  | .str s, _ => some s
  | .num x, steps => some (adjustNum x steps)

/-- The running value accumulated by the arithmetic steps of `_adjust`
before the final formatting.  A lookup step that does not match leaves the
running value unchanged; under the all-arithmetic hypotheses used below the
lookup clause never fires. -/
noncomputable def adjustAccum (x : ℝ) : List AdjStep → ℝ
  | [] => x
  | .arith op c :: rest => adjustAccum (stepApply x op c) rest
  | .lookup _ _ :: rest => adjustAccum x rest

/-- Model of `Poller._adjust_reverse`: walk the steps in reverse order applying the
inverse operator; a step whose key is not one of the five operators (i.e. a
lookup step) is silently skipped by the if/elif chain. -/
noncomputable def adjustReverse (v : ℝ) (steps : List AdjStep) : ℝ :=
  steps.reverse.foldl
    (fun acc s =>
      match s with
      | .arith op c => stepInvert acc op c
      | .lookup _ _ => acc)
    v

/-- Side conditions under which the arithmetic pipeline is invertible over
the reals: only arithmetic steps, nonzero operands for *, / and ^, and a
non-negative running value at each ^ step. -/
def invOk : ℝ → List AdjStep → Prop
  | _, [] => True
  | x, .arith op c :: rest =>
      (match op with
        | .mul => c ≠ 0
        | .div => c ≠ 0
        | .pw => c ≠ 0 ∧ 0 ≤ x
        | _ => True) ∧ invOk (stepApply x op c) rest
  | _, .lookup _ _ :: _ => False

/-! ## Codec (src/utils/coders.py).

The `Decoder` and `Encoder` classes.  `Signed`, `Unsigned`, `Hex - ASCII`
and `Binary` are implemented directly in the repository and are modelled
exactly.  The twelve remaining formats delegate to pymodbus
`BinaryPayloadDecoder` / `BinaryPayloadBuilder` (an external library), which
is abstracted as the record `ExtCodec` of uninterpreted functions taking the
byte order and word order the repository passes. -/

/-- Model of `pymodbus.constants.Endian` values the repository passes. -/
inductive Endianness | big | little
deriving DecidableEq

/-- The external pymodbus payload codec, abstracted: decoders take
(byteorder, wordorder, registers), builders take (byteorder, wordorder,
value); the 16-bit builders are always called with byteorder Big and no word
order. -/
structure ExtCodec where
  dec32int : Endianness → Endianness → List ℕ → ℤ
  dec32float : Endianness → Endianness → List ℕ → ℝ
  dec64float : Endianness → Endianness → List ℕ → ℝ
  b16int : ℤ → List ℕ
  b16uint : ℤ → List ℕ
  b32int : Endianness → Endianness → ℤ → List ℕ
  b32float : Endianness → Endianness → ℝ → List ℕ
  b64float : Endianness → Endianness → ℝ → List ℕ

/-- Model of `Decoder.signed`: two's-complement read of `value[0]` (the callers
guarantee a non-empty list; the head default is never exercised). -/
def signedDec (raw : List ℕ) : ℤ :=
  if raw.headD 0 > 32767 then (raw.headD 0 : ℤ) - 65536 else (raw.headD 0 : ℤ)

/-- Model of `Decoder.unsigned`: `int(value[0])`. -/
def unsignedDec (raw : List ℕ) : ℤ := (raw.headD 0 : ℤ)

/-- Model of `Decoder.hex_ascii`: Python `hex(int(value[0]))`, i.e. "0x" followed by
the lowercase hexadecimal digits. -/
def hexAsciiStr (w : ℕ) : String := "0x" ++ String.mk (Nat.toDigits 16 w)

/-- Model of `Decoder.binary`: `format(value[0], '016b')` (binary digits left-padded
with zeros to width 16) cut into four slices of four characters joined by
spaces. -/
def binaryStr (w : ℕ) : String :=
  let padded := List.replicate (16 - (Nat.toDigits 2 w).length) '0' ++ Nat.toDigits 2 w
  String.mk (padded.take 4) ++ " " ++ String.mk ((padded.drop 4).take 4) ++ " " ++
    String.mk ((padded.drop 8).take 4) ++ " " ++ String.mk ((padded.drop 12).take 4)

/-- The `format_dict` dispatch of `Poller.decode_value`
(src/utils/modbus.py lines 352-367), with the byte/word orders each
`Decoder` method passes to pymodbus (src/utils/coders.py). -/
noncomputable def decodeFmt (E : ExtCodec) : Format → List ℕ → AdjInput
  | .signed, raw => .num ((signedDec raw : ℤ) : ℝ)
  | .unsigned, raw => .num ((unsignedDec raw : ℤ) : ℝ)
  | .hexAscii, raw => .str (hexAsciiStr (raw.headD 0))
  | .binary, raw => .str (binaryStr (raw.headD 0))
  | .longABCD, raw => .num ((E.dec32int .big .big raw : ℤ) : ℝ)
  | .longCDAB, raw => .num ((E.dec32int .big .little raw : ℤ) : ℝ)
  | .longBADC, raw => .num ((E.dec32int .little .big raw : ℤ) : ℝ)
  | .longDCBA, raw => .num ((E.dec32int .little .little raw : ℤ) : ℝ)
  | .floatABCD, raw => .num (E.dec32float .big .big raw)
  | .floatCDAB, raw => .num (E.dec32float .big .little raw)
  | .floatBADC, raw => .num (E.dec32float .little .big raw)
  | .floatDCBA, raw => .num (E.dec32float .little .little raw)
  | .doubleABCDEFGH, raw => .num (E.dec64float .big .big raw)
  | .doubleGHEFCDAB, raw => .num (E.dec64float .big .little raw)
  | .doubleBADCFEHG, raw => .num (E.dec64float .little .big raw)
  | .doubleHGFEDCBA, raw => .num (E.dec64float .little .little raw)

/-- Python exceptions relevant to the poll cycle. -/
inductive PyErr | valueError | modbusException
deriving DecidableEq

/-- Model of `Poller.decode_value` (src/utils/modbus.py lines 331-374): an empty raw
slice raises ValueError; otherwise the decoded value runs through `_adjust`.
(The unknown-format ValueError branch is unrepresentable here because the
format is already one of the sixteen enum values; `decode_value` is only
ever called with keys of `reg_len`.) -/
noncomputable def decodeValue (E : ExtCodec) (raw : List ℕ) (fmt : Format)
    (adjs : List AdjStep) : Except PyErr (Option String) :=
  if raw = [] then .error .valueError
  else .ok (adjust (decodeFmt E fmt raw) adjs)

/-! ## The poll cycle (the `registers` getter of `Poller`,
src/utils/modbus.py lines 160-206, and `Poller._poll`, lines 502-533).

`_poll` performs the wire transaction: it returns `None` on a connection
error, a pymodbus error response, or an unknown function code, and the
response value list otherwise.  Being external I/O, its outcome is an input
of the model: the `oracle` argument maps (function code, start address,
quantity) to `Option (List Nat)` exactly as `_poll` returns (bit reads
deliver booleans, coerced here to 0/1 words — `Decoder` applies `int()` to
them). -/

/-- The register content dictionary carried in a request map entry. -/
structure Content where
  device : String
  guid : String
  address : ℕ
  id : String
  code : String
  name : String
  format : Format
  adjustments : List AdjStep

/-- One request group as consumed by the `registers` getter. -/
structure Request where
  address : ℕ
  quantity : ℕ
  map : List (ℕ × Content)

/-- One result row: the 12-element list the getter appends per register. -/
structure Row where
  device : String
  id : String
  address : ℕ
  name : String
  code : String
  format : Format
  value : Option String
  response : Option (List ℕ)
  timestamp : String
  changed : Bool
  fn : ℕ
  guid : String

/-- Model of `response[pos:pos+length] if response else []`: an absent or empty
response gives the empty slice, otherwise the (clipped) list slice. -/
def sliceResponse (response : Option (List ℕ)) (pos len : ℕ) : List ℕ :=
  match response with
  | Option.none => []
  | some r => if r = [] then [] else (r.drop pos).take len

/-- Processing of one request group inside the getter loop: one wire
transaction, then one row per map entry; a ValueError from `decode_value`
aborts the iteration (it propagates out of the `for` loops). -/
noncomputable def processRequest (E : ExtCodec) (oracle : ℕ → ℕ → ℕ → Option (List ℕ))
    (fn : ℕ) (req : Request) (now : String) : Except PyErr (List Row) :=
  let response := oracle fn req.address req.quantity
  req.map.foldl
    (fun acc entry =>
      match acc with
      | .error e => .error e
      | .ok rows =>
          let c := entry.2
          match decodeValue E (sliceResponse response entry.1 (regLen c.format))
              c.format c.adjustments with
          | .error e => .error e
          | .ok v =>
              .ok (rows ++ [{ device := c.device, id := c.id, address := c.address,
                              name := c.name, code := c.code, format := c.format,
                              value := v, response := response, timestamp := now,
                              changed := true, fn := fn, guid := c.guid }]))
    (.ok [])

/-- The nested `for fn, requests ... for request ...` loops of the getter
body, accumulating the result rows. -/
noncomputable def registersLoop (E : ExtCodec) (oracle : ℕ → ℕ → ℕ → Option (List ℕ))
    (requests : List (ℕ × List Request)) (now : String) : Except PyErr (List Row) :=
  requests.foldl
    (fun acc p =>
      p.2.foldl
        (fun acc2 req =>
          match acc2 with
          | .error e => .error e
          | .ok rows =>
              match processRequest E oracle p.1 req now with
              | .error e => .error e
              | .ok newRows => .ok (rows ++ newRows))
        acc)
    (.ok [])

/-- The `registers` getter: the loop wrapped in
`try ... except ModbusException: ... return None`.  Only ModbusException is
caught (and turned into the `None` return); a ValueError raised by
`decode_value` propagates to the caller. -/
noncomputable def registersGet (E : ExtCodec) (oracle : ℕ → ℕ → ℕ → Option (List ℕ))
    (requests : List (ℕ × List Request)) (now : String) :
    Except PyErr (Option (List Row)) :=
  match registersLoop E oracle requests now with
  | .ok rows => .ok (some rows)
  | .error .modbusException => .ok Option.none
  | .error .valueError => .error .valueError

/-! ## The polling loop cadence (`Worker.run`, src/utils/workers.py lines
83-91, called from `PollingWorker.run`, lines 173-191).

`PollingWorker.run` measures the cycle duration in milliseconds into
`_exec_time` and calls `Worker.run`, which executes
`if self._exec_time > self.sleep: self._exec_time = 0` and then
`QThread.msleep(self.sleep - self._exec_time)`. -/

/-- The number of milliseconds `Worker.run` sleeps, given the configured
interval `sleepT` (`self.sleep`) and the measured cycle duration `exec`
(`self._exec_time`). -/
def workerSleepMs (sleepT exec : ℤ) : ℤ :=
  if exec > sleepT then sleepT else sleepT - exec

/-- Gap between the starts of two successive cycles: the cycle duration plus
the end-of-cycle sleep. -/
def cycleGap (sleepT exec : ℤ) : ℤ :=
  exec + workerSleepMs sleepT exec

/-! ## Write path (`Poller.encode_value`, src/utils/modbus.py lines 376-417;
`Encoder`, src/utils/coders.py lines 239-498; `PollingWorker.writeRegisters`,
src/utils/workers.py lines 147-171).

`isNumerical` (src/utils/utils.py) is `try: float(value); return True
except ValueError: return False`, i.e. Python's float parser; it and the
parse itself are abstracted as the arguments `isNum` and `pyFloat`. -/

/-- Truncation toward zero: Python `int()` applied to a float. -/
noncomputable def pyTrunc (x : ℝ) : ℤ := if 0 ≤ x then ⌊x⌋ else ⌈x⌉

/-- One character of `[0-9a-fA-F]`. -/
def isHexDigitCh (c : Char) : Bool :=
  c.isDigit || ('a' ≤ c && c ≤ 'f') || ('A' ≤ c && c ≤ 'F')

/-- The compiled regex `^0x[0-9a-fA-F]{1,4}$` of `Encoder.__init__`. -/
def hexAsciiPattern (s : String) : Bool :=
  match s.toList with
  | '0' :: 'x' :: rest =>
      decide (1 ≤ rest.length) && decide (rest.length ≤ 4) && rest.all isHexDigitCh
  | _ => false

/-- Value of one hexadecimal digit character. -/
def hexDigitVal (c : Char) : ℕ :=
  if c.isDigit then c.toNat - '0'.toNat
  else if 'a' ≤ c && c ≤ 'f' then c.toNat - 'a'.toNat + 10
  else c.toNat - 'A'.toNat + 10

/-- Model of `int(value, 16)` on a `0x`-prefixed literal. -/
def hexVal (s : String) : ℕ :=
  (s.toList.drop 2).foldl (fun acc c => 16 * acc + hexDigitVal c) 0

/-- The compiled regex `^[01]{4} [01]{4} [01]{4} [01]{4}$` of
`Encoder.__init__`. -/
def binaryPattern (s : String) : Bool :=
  let parts := s.splitOn " "
  decide (parts.length = 4) &&
    parts.all (fun p => decide (p.length = 4) && p.toList.all (fun c => c = '0' || c = '1'))

/-- Model of `int(value.replace(' ', ''), 2)`. -/
def binVal (s : String) : ℕ :=
  (s.toList.filter (fun c => c ≠ ' ')).foldl
    (fun acc c => 2 * acc + (if c = '1' then 1 else 0)) 0

/-- Model of `Encoder.signed`: range check to [-32768, 32767], then pack a 16-bit
signed integer; out of range returns `None` (no exception). -/
noncomputable def encSigned (E : ExtCodec) (v : ℝ) : Option (List ℕ) :=
  if -32768 ≤ v ∧ v ≤ 32767 then some (E.b16int (pyTrunc v)) else Option.none

/-- Model of `Encoder.unsigned`: range check to [0, 65535], then pack a 16-bit
unsigned integer; out of range returns `None`. -/
noncomputable def encUnsigned (E : ExtCodec) (v : ℝ) : Option (List ℕ) :=
  if 0 ≤ v ∧ v ≤ 65535 then some (E.b16uint (pyTrunc v)) else Option.none

/-- Model of `Encoder.hex_ascii`: pattern check, then pack the parsed value. -/
def encHexAscii (E : ExtCodec) (s : String) : Option (List ℕ) :=
  if hexAsciiPattern s then some (E.b16uint (hexVal s)) else Option.none

/-- Model of `Encoder.binary`: pattern check, then pack the parsed value. -/
def encBinary (E : ExtCodec) (s : String) : Option (List ℕ) :=
  if binaryPattern s then some (E.b16uint (binVal s)) else Option.none

/-- The sixteen keys of the `format_dict` of `Poller.encode_value`
(src/utils/modbus.py lines 392-407). -/
def encFormatNames : List String :=
  ["Signed", "Unsigned", "Hex - ASCII", "Binary",
   "Long AB CD", "Long CD AB", "Long BA DC", "Long DC BA",
   "Float AB CD", "Float CD AB", "Float BA DC", "Float DC BA",
   "Double AB CD EF GH", "Double GH EF CD AB", "Double BA DC FE HG", "Double HG FE DC BA"]

/-- Dispatch to the `Encoder` method for a numeric format, with the
byte/word orders each method passes (src/utils/coders.py lines 332-498).
The 32/64-bit builders pack unconditionally (no range check). -/
noncomputable def encDispatchNum (E : ExtCodec) (fmt : String) (v : ℝ) : Option (List ℕ) :=
  if fmt = "Signed" then encSigned E v
  else if fmt = "Unsigned" then encUnsigned E v
  else if fmt = "Long AB CD" then some (E.b32int .big .big (pyTrunc v))
  else if fmt = "Long CD AB" then some (E.b32int .big .little (pyTrunc v))
  else if fmt = "Long BA DC" then some (E.b32int .little .big (pyTrunc v))
  else if fmt = "Long DC BA" then some (E.b32int .little .little (pyTrunc v))
  else if fmt = "Float AB CD" then some (E.b32float .big .big v)
  else if fmt = "Float CD AB" then some (E.b32float .big .little v)
  else if fmt = "Float BA DC" then some (E.b32float .little .big v)
  else if fmt = "Float DC BA" then some (E.b32float .little .little v)
  else if fmt = "Double AB CD EF GH" then some (E.b64float .big .big v)
  else if fmt = "Double GH EF CD AB" then some (E.b64float .big .little v)
  else if fmt = "Double BA DC FE HG" then some (E.b64float .little .big v)
  else if fmt = "Double HG FE DC BA" then some (E.b64float .little .little v)
  else Option.none

/-- Model of `Poller.encode_value`: an unknown format name raises ValueError; for a
numeric format the value must pass `isNumerical` (else `None` is returned),
is converted by `float` and run backward through the adjustments, then
dispatched to the encoder; `Hex - ASCII` and `Binary` dispatch the string
directly. -/
noncomputable def encodeValue (E : ExtCodec) (isNum : String → Bool)
    (pyFloat : String → ℝ) (value : String) (fmt : String) (adjs : List AdjStep) :
    Except PyErr (Option (List ℕ)) :=
  if fmt ∈ encFormatNames then
    if fmt ≠ "Hex - ASCII" ∧ fmt ≠ "Binary" then
      if isNum value then
        .ok (encDispatchNum E fmt (adjustReverse (pyFloat value) adjs))
      else .ok Option.none
    else if fmt = "Hex - ASCII" then .ok (encHexAscii E value)
    else .ok (encBinary E value)
  else .error .valueError

/-- Model of `PollingWorker.writeRegisters`: encode, and only when the encoded value
is not `None` call `Poller.writeRegisters` — the wire write, recorded here
as the `(address, registers)` pair; `.ok Option.none` means no wire write was
attempted. -/
noncomputable def workerWriteRegisters (E : ExtCodec) (isNum : String → Bool)
    (pyFloat : String → ℝ) (addr : ℕ) (fmt : String) (adjs : List AdjStep)
    (value : String) : Except PyErr (Option (ℕ × List ℕ)) :=
  match encodeValue E isNum pyFloat value fmt adjs with
  | .error e => .error e
  | .ok Option.none => .ok Option.none
  | .ok (some regs) => .ok (some (addr, regs))

/-! ## Connection settings (`Poller.__init__`, src/utils/modbus.py lines
53-77, and the `scan_rate` setter, lines 90-100).

The Python constructor stores the caller's dictionary by reference
(`self._settings = settings`) and immediately executes
`self._settings['scan_rate'] = 1000`; the `scan_rate` setter assigns the
same key.  The dictionary is modelled as a function from keys to optional
values; because the dict is aliased and never copied, the poller state's
`settings` IS the externally supplied dictionary. -/

/-- A settings dictionary value (strings and integers occur). -/
inductive SettingVal
  | i (n : ℤ)
  | s (v : String)
deriving DecidableEq

/-- The settings dictionary. -/
def Settings := String → Option SettingVal

/-- Python dict assignment `d[k] = v`. -/
def dictSet (d : Settings) (k : String) (v : SettingVal) : Settings :=
  fun k' => if k' = k then some v else d k'

/-- The poller state visible through `_settings`. -/
structure PollerState where
  settings : Settings

/-- Model of `Poller.__init__`: alias the supplied dict and set `scan_rate` to 1000. -/
def pollerInit (settings : Settings) : PollerState :=
  ⟨dictSet settings "scan_rate" (SettingVal.i 1000)⟩

/-- The `scan_rate` setter. -/
def setScanRate (st : PollerState) (v : ℤ) : PollerState :=
  ⟨dictSet st.settings "scan_rate" (SettingVal.i v)⟩

/-- Model of `Poller._get` / the `scan_rate` getter: a pure read. -/
def pollerGet (st : PollerState) (k : String) : Option SettingVal :=
  st.settings k

/-! ## Concrete inputs used by the claim theorems -/

/-- Three one-word registers at consecutive addresses 0, 1, 2. -/
def c3r0 : Reg := ⟨0, Format.signed, 0⟩

def c3r1 : Reg := ⟨1, Format.signed, 1⟩

def c3r2 : Reg := ⟨2, Format.signed, 2⟩

def c3r3 : Reg := ⟨3, Format.signed, 3⟩

/-- One-word registers at addresses 0, 1 and 3 (a gap before 3). -/
def c8r0 : Reg := ⟨0, Format.signed, 0⟩

def c8r1 : Reg := ⟨1, Format.signed, 1⟩

def c8r3 : Reg := ⟨3, Format.signed, 3⟩

def c8regs : List Reg := [c8r0, c8r1, c8r3]

/-- A Signed register at address 0 with no adjustments. -/
def c1content0 : Content :=
  ⟨"dev", "guid-dev", 0, "reg-0", "C0", "R0", Format.signed, []⟩

/-- A Signed register at address 5 with no adjustments. -/
def c1content5 : Content :=
  ⟨"dev", "guid-dev", 5, "reg-5", "C5", "R5", Format.signed, []⟩

def c1req0 : Request := ⟨0, 1, [(0, c1content0)]⟩

def c1req5 : Request := ⟨5, 1, [(0, c1content5)]⟩

/-- Two holding-register batches (function code 3). -/
def c1requests : List (ℕ × List Request) := [(3, [c1req0, c1req5])]

/-- A wire oracle for which the batch at address 0 succeeds with word 5 and
the batch at address 5 fails (`_poll` returns `None`). -/
def c1oracle : ℕ → ℕ → ℕ → Option (List ℕ) :=
  fun _ addr _ => if addr = 0 then some [5] else Option.none

def c5steps : List AdjStep := [.arith .add 1]

def c5wsteps : List AdjStep := [.arith .add 5, .arith .mul 2]

/-- A typical RTU settings dictionary without a `scan_rate` key. -/
def c9settings : Settings :=
  fun k =>
    if k = "protocol" then some (SettingVal.s "RTU")
    else if k = "port" then some (SettingVal.s "COM1")
    else if k = "slave_id" then some (SettingVal.i 1)
    else Option.none

/-- A concrete instance of the abstracted pymodbus payload codec. -/
noncomputable def extCodec0 : ExtCodec :=
  ⟨fun _ _ _ => 0, fun _ _ _ => 0, fun _ _ _ => 0, fun _ => [], fun _ => [],
   fun _ _ _ => [], fun _ _ _ => [], fun _ _ _ => []⟩

/-! ## Claim theorems -/

/-! Basic facts about the planner. -/

theorem regLen_pos (f : Format) : 1 ≤ regLen f := by
  cases f <;> simp [regLen]

theorem maxEntry_result (l : List (Nat × Reg)) (acc : Option (Nat × Reg)) :
    l.foldl
      (fun acc e =>
        match acc with
        | Option.none => some e
        | some a => if a.1 < e.1 then some e else some a)
      acc = acc ∨
    ∃ p ∈ l,
      l.foldl
        (fun acc e =>
          match acc with
          | Option.none => some e
          | some a => if a.1 < e.1 then some e else some a)
        acc = some p := by
  induction l generalizing acc with
  | nil => exact Or.inl rfl
  | cons e rest ih =>
      rw [List.foldl_cons]
      cases acc with
      | none =>
          rcases ih (some e) with h | ⟨p, hp, heq⟩
          · exact Or.inr ⟨e, List.mem_cons_self e rest, h⟩
          · exact Or.inr ⟨p, List.mem_cons_of_mem e hp, heq⟩
      | some a =>
          by_cases hlt : a.1 < e.1
          · rcases ih (some e) with h | ⟨p, hp, heq⟩
            · exact Or.inr ⟨e, List.mem_cons_self e rest, by simpa [hlt] using h⟩
            · exact Or.inr ⟨p, List.mem_cons_of_mem e hp, by simpa [hlt] using heq⟩
          · rcases ih (some a) with h | ⟨p, hp, heq⟩
            · exact Or.inl (by simpa [hlt] using h)
            · exact Or.inr ⟨p, List.mem_cons_of_mem e hp, by simpa [hlt] using heq⟩

theorem maxEntry_append (l : List (Nat × Reg)) (k : Nat) (r : Reg)
    (h : ∀ e ∈ l, e.1 < k) : maxEntry (l ++ [(k, r)]) = some (k, r) := by
  unfold maxEntry
  rw [List.foldl_append]
  rcases maxEntry_result l Option.none with h0 | ⟨p, hp, heq⟩
  · rw [h0]
    rfl
  · rw [heq]
    simp [h p hp]

theorem PInv_new (r : Reg) :
    PInv { address := r.address, quantity := regLen r.format, map := [(0, r)] } := by
  refine ⟨0, r, rfl, by simp, by simp, ?_⟩
  intro e he
  simp at he
  rw [he]
  exact regLen_pos r.format

theorem PInv_extend (b : Batch) (r : Reg) (hr : r.address = b.address + b.quantity)
    (hinv : PInv b) :
    PInv { b with
            quantity := b.quantity + regLen r.format,
            map := b.map ++ [(b.quantity, r)] } := by
  obtain ⟨pk, pr, hmax, hq, ha, hbound⟩ := hinv
  refine ⟨b.quantity, r, ?_, rfl, ?_, ?_⟩
  · exact maxEntry_append b.map b.quantity r hbound
  · show r.address + regLen r.format = b.address + (b.quantity + regLen r.format)
    omega
  · intro e he
    show e.1 < b.quantity + regLen r.format
    rcases List.mem_append.1 he with h1 | h1
    · have h2 := hbound e h1
      have h3 := regLen_pos r.format
      omega
    · simp at h1
      rw [h1]
      exact Nat.lt_add_of_pos_right (regLen_pos r.format)

theorem planStep_eq_spec (requests : List Batch) (r : Reg)
    (h : ∀ b, requests.getLast? = some b → PInv b) :
    planStep requests r = planSpecStep requests r := by
  cases hL : requests.getLast? with
  | none => simp [planStep, planSpecStep, hL]
  | some b =>
      obtain ⟨pk, pr, hmax, hq, ha, hbound⟩ := h b hL
      by_cases hc : r.address = b.address + b.quantity
      · simp [planStep, planSpecStep, hL, hmax, ha, hc, hq]
      · have hc' : ¬ r.address = pr.address + regLen pr.format := by
          rw [ha]; exact hc
        simp [planStep, planSpecStep, hL, hmax, hc, hc']

theorem planStep_inv (requests : List Batch) (r : Reg)
    (h : ∀ b, requests.getLast? = some b → PInv b) :
    ∀ b', (planStep requests r).getLast? = some b' → PInv b' := by
  cases hL : requests.getLast? with
  | none =>
      intro b' hb'
      simp [planStep, hL] at hb'
      rw [← hb']
      exact PInv_new r
  | some b =>
      obtain ⟨pk, pr, hmax, hq, ha, hbound⟩ := h b hL
      intro b' hb'
      by_cases hc : r.address = pr.address + regLen pr.format
      · simp [planStep, hL, hmax, hc, List.getLast?_concat] at hb'
        rw [← hb', hq]
        exact PInv_extend b r (hc.trans ha) ⟨pk, pr, hmax, hq, ha, hbound⟩
      · simp [planStep, hL, hmax, hc, List.getLast?_concat] at hb'
        rw [← hb']
        exact PInv_new r

theorem foldl_planStep_eq (regs : List Reg) :
    ∀ acc, (∀ b, acc.getLast? = some b → PInv b) →
      regs.foldl planStep acc = regs.foldl planSpecStep acc := by
  induction regs with
  | nil => intro acc _; rfl
  | cons r rest ih =>
      intro acc h
      rw [List.foldl_cons, List.foldl_cons, planStep_eq_spec acc r h]
      refine ih (planSpecStep acc r) ?_
      rw [← planStep_eq_spec acc r h]
      exact planStep_inv acc r h

/-- The source's greedy planner agrees with the spec's description of it on
every input. -/
theorem planRegisters_eq_spec (regs : List Reg) :
    planRegisters regs = planSpecRegisters regs := by
  unfold planRegisters planSpecRegisters
  refine foldl_planStep_eq regs [] ?_
  intro b hb
  simp at hb

theorem chain_lb (addr : Nat) :
    ∀ (l : List (Nat × Reg)) (o : Nat), ChainFrom addr o l → ∀ e ∈ l, o ≤ e.1 := by
  intro l
  induction l with
  | nil => intro o _ e he; cases he
  | cons hd rest ih =>
      intro o hc e he
      obtain ⟨k, r⟩ := hd
      obtain ⟨hk, _, hrest⟩ := hc
      rcases List.mem_cons.1 he with h | h
      · rw [h, hk]
      · have := ih (o + regLen r.format) hrest e h
        omega

theorem chain_pairwise (addr : Nat) :
    ∀ (l : List (Nat × Reg)) (o : Nat), ChainFrom addr o l → l.Pairwise entriesDisjoint := by
  intro l
  induction l with
  | nil => intro o _; exact List.Pairwise.nil
  | cons hd rest ih =>
      intro o hc
      obtain ⟨k, r⟩ := hd
      obtain ⟨hk, _, hrest⟩ := hc
      refine List.Pairwise.cons ?_ (ih (o + regLen r.format) hrest)
      intro e he
      have := chain_lb addr rest (o + regLen r.format) hrest e he
      left
      show k + regLen r.format ≤ e.1
      omega

theorem sumLens_append (l : List (Nat × Reg)) (e : Nat × Reg) :
    sumLens (l ++ [e]) = sumLens l + regLen e.2.format := by
  simp [sumLens]

theorem chain_append (addr : Nat) :
    ∀ (l : List (Nat × Reg)) (o k : Nat) (r : Reg),
      ChainFrom addr o l → k = o + sumLens l → r.address = addr + k →
      ChainFrom addr o (l ++ [(k, r)]) := by
  intro l
  induction l with
  | nil =>
      intro o k r _ hk hr
      have hk0 : k = o := by simpa [sumLens] using hk
      exact ⟨hk0, by rw [hr, hk0], trivial⟩
  | cons hd rest ih =>
      intro o k r hc hk hr
      obtain ⟨k0, r0⟩ := hd
      obtain ⟨hk0, hr0, hrest⟩ := hc
      refine ⟨hk0, hr0, ?_⟩
      refine ih (o + regLen r0.format) k r hrest ?_ hr
      simp [sumLens] at hk ⊢
      omega

theorem planSpec_inv (regs : List Reg) :
    ∀ acc, (∀ b ∈ acc, BatchWF b) →
      (∀ b ∈ regs.foldl planSpecStep acc, BatchWF b) ∧
      contents (regs.foldl planSpecStep acc) = contents acc ++ regs := by
  induction regs with
  | nil =>
      intro acc h
      exact ⟨h, by simp⟩
  | cons r rest ih =>
      intro acc h
      rw [List.foldl_cons]
      have hstep : (∀ b ∈ planSpecStep acc r, BatchWF b) ∧
          contents (planSpecStep acc r) = contents acc ++ [r] := by
        cases hL : acc.getLast? with
        | none =>
            have hnil : acc = [] := List.getLast?_eq_none_iff.1 hL
            subst hnil
            constructor
            · intro b hb
              simp [planSpecStep] at hb
              rw [hb]
              refine ⟨⟨rfl, by simp, trivial⟩, ?_⟩
              simp [sumLens]
            · simp [planSpecStep, contents]
        | some b =>
            obtain ⟨ys, hys⟩ := List.getLast?_eq_some_iff.1 hL
            have hb : BatchWF b := h b (by rw [hys]; simp)
            by_cases hc : r.address = b.address + b.quantity
            · have hplan : planSpecStep acc r =
                  ys ++ [{ b with
                            quantity := b.quantity + regLen r.format,
                            map := b.map ++ [(b.quantity, r)] }] := by
                simp [planSpecStep, hL, hc, hys]
              constructor
              · intro b' hb'
                rw [hplan] at hb'
                rcases List.mem_append.1 hb' with h1 | h1
                · exact h b' (by rw [hys]; exact List.mem_append_left _ h1)
                · simp at h1
                  rw [h1]
                  obtain ⟨hchain, hq⟩ := hb
                  constructor
                  · show ChainFrom b.address 0 (b.map ++ [(b.quantity, r)])
                    refine chain_append b.address b.map 0 b.quantity r hchain (by omega) (by omega)
                  · show b.quantity + regLen r.format = sumLens (b.map ++ [(b.quantity, r)])
                    rw [sumLens_append]
                    show b.quantity + regLen r.format = sumLens b.map + regLen r.format
                    omega
              · rw [hplan, hys]
                simp [contents]
            · have hplan : planSpecStep acc r =
                  acc ++ [{ address := r.address, quantity := regLen r.format, map := [(0, r)] }] := by
                simp [planSpecStep, hL, hc]
              constructor
              · intro b' hb'
                rw [hplan] at hb'
                rcases List.mem_append.1 hb' with h1 | h1
                · exact h b' h1
                · simp at h1
                  rw [h1]
                  exact ⟨⟨rfl, by simp, trivial⟩, by simp [sumLens]⟩
              · rw [hplan]
                simp [contents]
      obtain ⟨hwf, hcont⟩ := hstep
      obtain ⟨hwf', hcont'⟩ := ih (planSpecStep acc r) hwf
      refine ⟨hwf', ?_⟩
      rw [hcont', hcont, List.append_assoc]
      simp

theorem adjustReverse_nil (v : ℝ) : adjustReverse v [] = v := rfl

theorem adjustReverse_cons (v : ℝ) (s : AdjStep) (rest : List AdjStep) :
    adjustReverse v (s :: rest) =
      (match s with
        | .arith op c => stepInvert (adjustReverse v rest) op c
        | .lookup _ _ => adjustReverse v rest) := by
  unfold adjustReverse
  rw [List.reverse_cons, List.foldl_append]
  rfl

theorem stepInvert_stepApply (x c : ℝ) (op : AdjOp)
    (h : match op with
          | .mul => c ≠ 0
          | .div => c ≠ 0
          | .pw => c ≠ 0 ∧ 0 ≤ x
          | _ => True) :
    stepInvert (stepApply x op c) op c = x := by
  cases op with
  | add => simp [stepApply, stepInvert]
  | sub => simp [stepApply, stepInvert]
  | mul =>
      simp only [stepApply, stepInvert]
      exact mul_div_cancel_right₀ x h
  | div =>
      simp only [stepApply, stepInvert]
      exact div_mul_cancel₀ x h
  | pw =>
      obtain ⟨hc, hx⟩ := h
      simp only [stepApply, stepInvert, one_div]
      rw [← Real.rpow_mul hx, mul_inv_cancel₀ hc, Real.rpow_one]

theorem adjustAccum_invert (steps : List AdjStep) :
    ∀ x : ℝ, invOk x steps → adjustReverse (adjustAccum x steps) steps = x := by
  induction steps with
  | nil => intro x _; rfl
  | cons s rest ih =>
      intro x hok
      cases s with
      | lookup k lbl => exact absurd hok (by simp [invOk])
      | arith op c =>
          obtain ⟨hcond, hrest⟩ := hok
          rw [adjustReverse_cons]
          show stepInvert (adjustReverse (adjustAccum x (.arith op c :: rest)) rest) op c = x
          have hacc : adjustAccum x (.arith op c :: rest) = adjustAccum (stepApply x op c) rest := rfl
          rw [hacc, ih (stepApply x op c) hrest]
          exact stepInvert_stepApply x c op hcond

/-- Rounding characterised by bounds, used to evaluate the two-decimal
formatting at concrete real inputs. -/
theorem round_eq_of_bounds (r : ℝ) (n : ℤ) (h₁ : (n : ℝ) ≤ r + 1 / 2)
    (h₂ : r + 1 / 2 < n + 1) : round r = n := by
  rw [round_eq]
  exact Int.floor_eq_iff.mpr ⟨h₁, h₂⟩

/-- Claim C3: the batch planner appends a register to the current batch iff
it is the first register or its address equals the batch's start address
plus its current word count (extending the quantity by the register's word
length and recording its offset as the pre-extension word count), and
otherwise opens a new batch; addresses [0,1,2] of length 1 give one batch
{start 0, count 3} and [0,1,3] give {start 0, count 2} and {start 3,
count 1}. -/
theorem c3_planner :
    (∀ regs : List Reg, planRegisters regs = planSpecRegisters regs) ∧
    planRegisters [c3r0, c3r1, c3r2] =
      [{ address := 0, quantity := 3, map := [(0, c3r0), (1, c3r1), (2, c3r2)] }] ∧
    planRegisters [c3r0, c3r1, c3r3] =
      [{ address := 0, quantity := 2, map := [(0, c3r0), (1, c3r1)] },
       { address := 3, quantity := 1, map := [(0, c3r3)] }] :=
  ⟨planRegisters_eq_spec, by decide, by decide⟩

/-- Claim C8 counterexample: reading the invariant literally across the
whole batch set of one function code, it fails: for addresses [0, 1, 3] the
planner produces two batches that each contain an entry at offset 0 of
length 1, so two distinct entries of the set have overlapping (identical)
offset ranges. -/
theorem c8_counterexample :
    ¬ (∀ b₁ ∈ planRegisters c8regs, ∀ b₂ ∈ planRegisters c8regs,
        ∀ e₁ ∈ b₁.map, ∀ e₂ ∈ b₂.map,
          (b₁, e₁) ≠ (b₂, e₂) → entriesDisjoint e₁ e₂) := by
  decide

/-- Claim C8 (amended): for every register list, each produced batch has
word count equal to the sum of its offset-map members' lengths and its
offset ranges are pairwise disjoint WITHIN the batch, and the offset-map
entries of all batches, in order, are exactly the input registers (so each
register is referenced by exactly one entry).  Offsets are relative to each
batch's response, so entries of different batches may share offsets. -/
theorem c8_batch_invariants (regs : List Reg) :
    (∀ b ∈ planRegisters regs,
        b.quantity = sumLens b.map ∧ b.map.Pairwise entriesDisjoint) ∧
    contents (planRegisters regs) = regs := by
  have h := planSpec_inv regs [] (by intro b hb; cases hb)
  rw [planRegisters_eq_spec]
  refine ⟨?_, ?_⟩
  · intro b hb
    obtain ⟨hchain, hq⟩ := h.1 b hb
    exact ⟨hq, chain_pairwise b.address b.map 0 hchain⟩
  · have h2 := h.2
    simpa [contents] using h2

/-- Witness for the amended C8 claim at the registers [0, 1, 3]: the first
produced batch has word count 2 = 1 + 1 with disjoint entry ranges, and the
entries of all batches enumerate the input exactly. -/
theorem c8_batch_invariants_witness :
    ({ address := 0, quantity := 2, map := [(0, c8r0), (1, c8r1)] } : Batch).quantity =
        sumLens [(0, c8r0), (1, c8r1)] ∧
    List.Pairwise entriesDisjoint [(0, c8r0), (1, c8r1)] ∧
    contents (planRegisters c8regs) = c8regs := by
  have h := c8_batch_invariants c8regs
  have hb : ({ address := 0, quantity := 2, map := [(0, c8r0), (1, c8r1)] } : Batch) ∈
      planRegisters c8regs := by decide
  obtain ⟨h1, h2⟩ := h.1 _ hb
  exact ⟨h1, h2, h.2⟩

/-- Claim C1 (code-bug evidence): two one-register holding batches; the wire
read succeeds at address 0 and fails at address 5.  The cycle does not
return the partial row list: `decode_value` raises ValueError on the empty
raw slice of the failed batch, and the getter's `except ModbusException`
does not catch it, so the exception escapes the poll cycle. -/
theorem c1_cycle_raises (E : ExtCodec) :
    registersGet E c1oracle c1requests "ts" = .error .valueError := rfl

/-- Claim C2 counterexample: with a 1000 ms interval and a 1200 ms cycle,
`Worker.run` resets `_exec_time` to 0 and then sleeps the FULL interval of
1000 ms — not max(0, 1000 - 1200) = 0 as the claim states. -/
theorem c2_counterexample :
    workerSleepMs 1000 1200 = 1000 ∧
    workerSleepMs 1000 1200 ≠ max 0 (1000 - 1200) := by
  decide

/-- Claim C2 (amended): when the cycle duration does not exceed the
interval, the loop sleeps interval − duration and the gap between cycle
starts is the interval; when the duration exceeds the interval, the loop
sleeps the full interval (the sleep is NOT skipped), so the next cycle
starts a full interval after the overrunning cycle ends. -/
theorem c2_sleep_behavior (T EL : ℤ) :
    (EL ≤ T → workerSleepMs T EL = T - EL ∧ cycleGap T EL = T) ∧
    (T < EL → workerSleepMs T EL = T ∧ cycleGap T EL = EL + T) := by
  constructor
  · intro hle
    have hng : ¬ EL > T := not_lt.mpr hle
    unfold cycleGap workerSleepMs
    rw [if_neg hng]
    exact ⟨rfl, by omega⟩
  · intro hlt
    unfold cycleGap workerSleepMs
    rw [if_pos hlt]
    exact ⟨rfl, rfl⟩

/-- Witness for the amended C2 claim at the spec's own numbers: a 200 ms
cycle under a 1000 ms interval sleeps 800 ms (gap 1000 ms); a 1200 ms cycle
sleeps 1000 ms (gap 2200 ms). -/
theorem c2_sleep_behavior_witness :
    workerSleepMs 1000 200 = 800 ∧ cycleGap 1000 200 = 1000 ∧
    workerSleepMs 1000 1200 = 1000 ∧ cycleGap 1000 1200 = 1200 + 1000 := by
  have h1 := (c2_sleep_behavior 1000 200).1 (by decide)
  have h2 := (c2_sleep_behavior 1000 1200).2 (by decide)
  exact ⟨h1.1, h1.2, h2.1, h2.2⟩

/-- Claim C9 counterexample: construction alone mutates the externally
supplied settings dictionary (it is aliased, not copied): after
`Poller.__init__` the dict maps "scan_rate" to 1000 although the key was
absent before, so the settings do not remain unchanged. -/
theorem c9_counterexample :
    (pollerInit c9settings).settings "scan_rate" = some (SettingVal.i 1000) ∧
    c9settings "scan_rate" = Option.none ∧
    (pollerInit c9settings).settings "scan_rate" ≠ c9settings "scan_rate" := by
  refine ⟨by decide, by decide, by decide⟩

/-- Claim C9 (amended): the Poller aliases the supplied settings dictionary
and mutates exactly its "scan_rate" key — to 1000 at construction and to the
given value in the `scan_rate` setter; every other key is preserved by both
operations, and `_get` reads without mutating. -/
theorem c9_settings_mutation :
    (∀ (s : Settings) (k : String), k ≠ "scan_rate" →
        (pollerInit s).settings k = s k) ∧
    (∀ (st : PollerState) (v : ℤ) (k : String), k ≠ "scan_rate" →
        (setScanRate st v).settings k = st.settings k) ∧
    (∀ s : Settings, (pollerInit s).settings "scan_rate" = some (SettingVal.i 1000)) ∧
    (∀ (st : PollerState) (v : ℤ),
        (setScanRate st v).settings "scan_rate" = some (SettingVal.i v)) ∧
    (∀ (st : PollerState) (k : String), pollerGet st k = st.settings k) := by
  refine ⟨?_, ?_, ?_, ?_, ?_⟩
  · intro s k hk
    simp [pollerInit, dictSet, hk]
  · intro st v k hk
    simp [setScanRate, dictSet, hk]
  · intro s
    simp [pollerInit, dictSet]
  · intro st v
    simp [setScanRate, dictSet]
  · intro st k
    rfl

/-- Witness for the amended C9 claim: the "port" key survives construction
unchanged while "scan_rate" is written to 1000. -/
theorem c9_settings_mutation_witness :
    (pollerInit c9settings).settings "port" = c9settings "port" ∧
    (pollerInit c9settings).settings "scan_rate" = some (SettingVal.i 1000) :=
  ⟨c9_settings_mutation.1 c9settings "port" (by decide),
   c9_settings_mutation.2.2.1 c9settings⟩

/-- Claim C10: a string-valued decoded value (as produced by the Binary and
Hex - ASCII decoders) passes through the adjustment pipeline unchanged for
every adjustments list — `_adjust` returns a string input before the
lookup/arithmetic loop is reached. -/
theorem c10_string_passthrough (E : ExtCodec) (w : ℕ) (adjs : List AdjStep) (s : String) :
    adjust (AdjInput.str s) adjs = some s ∧
    decodeValue E [w] Format.hexAscii adjs = .ok (some (hexAsciiStr w)) ∧
    decodeValue E [w] Format.binary adjs = .ok (some (binaryStr w)) := by
  refine ⟨rfl, ?_, ?_⟩
  · simp [decodeValue, decodeFmt, adjust]
  · simp [decodeValue, decodeFmt, adjust]

/-- Claim C6: the forward pipeline walks the steps in order — a lookup step
whose key equals the running value returns its label immediately, a
non-matching lookup is skipped, an arithmetic step updates the running
value, and an exhausted list formats the result with exactly two decimal
digits; concretely raw 10 with steps [+5, *2] gives "30.00", raw 1 with
steps [{0: No}, {1: Yes}] gives "Yes" and raw 0 gives "No". -/
theorem c6_forward_pipeline :
    (∀ (x : ℝ) (k : ℕ) (lbl : String) (rest : List AdjStep), x = (k : ℝ) →
        adjust (.num x) (.lookup k lbl :: rest) = some lbl) ∧
    (∀ (x : ℝ) (k : ℕ) (lbl : String) (rest : List AdjStep), x ≠ (k : ℝ) →
        adjust (.num x) (.lookup k lbl :: rest) = adjust (.num x) rest) ∧
    (∀ (x : ℝ) (op : AdjOp) (c : ℝ) (rest : List AdjStep),
        adjust (.num x) (.arith op c :: rest) = adjust (.num (stepApply x op c)) rest) ∧
    (∀ x : ℝ, adjust (.num x) [] = some (fmt2 x)) ∧
    adjust (.num 10) [.arith .add 5, .arith .mul 2] = some "30.00" ∧
    adjust (.num 1) [.lookup 0 "No", .lookup 1 "Yes"] = some "Yes" ∧
    adjust (.num 0) [.lookup 0 "No", .lookup 1 "Yes"] = some "No" := by
  refine ⟨?_, ?_, ?_, ?_, ?_, ?_, ?_⟩
  · intro x k lbl rest h
    simp [adjust, adjustNum, h]
  · intro x k lbl rest h
    simp [adjust, adjustNum, h]
  · intro x op c rest
    rfl
  · intro x
    rfl
  · show some (adjustNum 10 [.arith .add 5, .arith .mul 2]) = some "30.00"
    have h1 : adjustNum (10 : ℝ) [.arith .add 5, .arith .mul 2] =
        fmt2 (((10 : ℝ) + 5) * 2) := rfl
    rw [h1]
    have h2 : (((10 : ℝ) + 5) * 2) = 30 := by norm_num
    rw [h2]
    have h3 : round ((30 : ℝ) * 100) = 3000 :=
      round_eq_of_bounds _ _ (by norm_num) (by norm_num)
    show some (fmt2Int (round ((30 : ℝ) * 100))) = some "30.00"
    rw [h3]
    rfl
  · simp [adjust, adjustNum]
  · simp [adjust, adjustNum]

/-- Witness for C6: a matching lookup returns its label at once; a
non-matching lookup falls through to the rest of the steps. -/
theorem c6_forward_pipeline_witness :
    adjust (.num 7) [.lookup 7 "hit"] = some "hit" ∧
    adjust (.num 7) [.lookup 8 "miss"] = adjust (.num 7) [] := by
  constructor
  · exact c6_forward_pipeline.1 7 7 "hit" [] (by norm_num)
  · exact c6_forward_pipeline.2.1 7 8 "miss" [] (by norm_num)

/-- Claim C5 counterexample: x = 0.001 with the single arithmetic step +1.
The forward pipeline displays "1.00" — the number 1 — and the reverse
pipeline applied to that displayed value returns 0 ≠ 0.001: the final
two-decimal formatting destroys the information the claimed exact roundtrip
would need. -/
theorem c5_counterexample :
    adjustNum (1 / 1000 : ℝ) c5steps = "1.00" ∧
    round2 (adjustAccum (1 / 1000 : ℝ) c5steps) = 1 ∧
    adjustReverse (1 : ℝ) c5steps = 0 ∧
    (0 : ℝ) ≠ 1 / 1000 := by
  have hround : round ((1 / 1000 + 1 : ℝ) * 100) = 100 :=
    round_eq_of_bounds _ _ (by norm_num) (by norm_num)
  refine ⟨?_, ?_, ?_, by norm_num⟩
  · have h1 : adjustNum (1 / 1000 : ℝ) c5steps = fmt2 ((1 / 1000 : ℝ) + 1) := rfl
    rw [h1]
    show fmt2Int (round ((1 / 1000 + 1 : ℝ) * 100)) = "1.00"
    rw [hround]
    rfl
  · show (round ((1 / 1000 + 1 : ℝ) * 100) : ℝ) / 100 = 1
    rw [hround]
    norm_num
  · show stepInvert (1 : ℝ) .add 1 = 0
    simp [stepInvert]

/-- Claim C5 (amended): the reverse pipeline exactly undoes the
un-formatted forward accumulation — for every x and all-arithmetic step list
whose *, / and ^ operands are nonzero and whose running value is
non-negative at each ^ step, invert(accumulate(x, steps), steps) = x.
Applied to the formatted two-decimal display output (as the claim stated),
recovery holds only up to the display rounding. -/
theorem c5_arith_roundtrip (x : ℝ) (steps : List AdjStep) (h : invOk x steps) :
    adjustReverse (adjustAccum x steps) steps = x :=
  adjustAccum_invert steps x h

/-- Witness for the amended C5 claim: steps [+5, *2] applied to 10 and then
inverted give back 10. -/
theorem c5_arith_roundtrip_witness :
    invOk (10 : ℝ) c5wsteps ∧
    adjustReverse (adjustAccum (10 : ℝ) c5wsteps) c5wsteps = 10 := by
  have hok : invOk (10 : ℝ) c5wsteps := by
    refine ⟨trivial, ?_, trivial⟩
    norm_num
  exact ⟨hok, c5_arith_roundtrip 10 c5wsteps hok⟩

/-- Claim C7: encoding range-checks Signed to [-32768, 32767] and Unsigned
to [0, 65535], returning `None` (a failure value, not an exception) when out
of range — in particular Signed at 40000 yields no registers; a value that
fails numeric validation, or whose encode returns the range failure, makes
`writeRegisters` perform no wire write; and an unknown format name raises
ValueError (a fatal configuration error) — distinct from the `None`
data-range failure. -/
theorem c7_write_path_guard (E : ExtCodec) (isNum : String → Bool)
    (pyFloat : String → ℝ) :
    (∀ v : ℝ, ¬ (-32768 ≤ v ∧ v ≤ 32767) → encSigned E v = Option.none) ∧
    (∀ v : ℝ, ¬ (0 ≤ v ∧ v ≤ 65535) → encUnsigned E v = Option.none) ∧
    encSigned E 40000 = Option.none ∧
    (∀ (addr : ℕ) (fmt : String) (adjs : List AdjStep) (value : String),
        fmt ∈ encFormatNames → fmt ≠ "Hex - ASCII" → fmt ≠ "Binary" →
        isNum value = false →
        workerWriteRegisters E isNum pyFloat addr fmt adjs value = .ok Option.none) ∧
    (∀ (addr : ℕ) (fmt : String) (adjs : List AdjStep) (value : String),
        encodeValue E isNum pyFloat value fmt adjs = .ok Option.none →
        workerWriteRegisters E isNum pyFloat addr fmt adjs value = .ok Option.none) ∧
    (∀ (addr : ℕ) (fmt : String) (adjs : List AdjStep) (value : String),
        fmt ∉ encFormatNames →
        workerWriteRegisters E isNum pyFloat addr fmt adjs value = .error .valueError) := by
  refine ⟨?_, ?_, ?_, ?_, ?_, ?_⟩
  · intro v h
    simp [encSigned, h]
  · intro v h
    simp [encUnsigned, h]
  · have h : ¬ ((-32768 : ℝ) ≤ 40000 ∧ (40000 : ℝ) ≤ 32767) := by norm_num
    simp [encSigned, h]
  · intro addr fmt adjs value hmem h1 h2 hni
    have henc : encodeValue E isNum pyFloat value fmt adjs = .ok Option.none := by
      simp [encodeValue, hmem, h1, h2, hni]
    simp [workerWriteRegisters, henc]
  · intro addr fmt adjs value h
    simp [workerWriteRegisters, h]
  · intro addr fmt adjs value h
    simp [workerWriteRegisters, encodeValue, h]

/-- Witness for C7: Signed at 40000 yields the range failure with no
registers; a non-numeric value for a numeric format produces no wire write;
an unknown format name is the distinct fatal error. -/
theorem c7_write_path_guard_witness :
    encSigned extCodec0 40000 = Option.none ∧
    workerWriteRegisters extCodec0 (fun _ => false) (fun _ => 0) 0 "Signed" [] "abc" =
      .ok Option.none ∧
    workerWriteRegisters extCodec0 (fun _ => false) (fun _ => 0) 0 "Bogus" [] "1" =
      .error .valueError := by
  have h := c7_write_path_guard extCodec0 (fun _ => false) (fun _ => 0)
  refine ⟨h.2.2.1, ?_, ?_⟩
  · exact h.2.2.2.1 0 "Signed" [] "abc" (by decide) (by decide) (by decide) rfl
  · exact h.2.2.2.2.2 0 "Bogus" [] "1" (by decide)
